import Mathlib

/-!
Verification of the command-interpretation and financial-aggregation engine of
the `finance-tracker` repository.

Definitions are translated from `backend/main_20250909155147.py` (the revision
implementing the full data model: transactions, budgets with upsert and
threshold warnings, goals, recurring rules with clamped calendar arithmetic,
and the get-by-id command); `editTransaction` is translated from
`backend/main_20250909235636.py`, the only revision containing it.

Modelling conventions:
  * Python `float` amounts are modelled as exact rationals (`ℚ`).
  * Text is a list of characters; the regex character classes `\d`, `\w`,
    `\s` and `[a-zA-Z0-9 _-]` are modelled over ASCII, as are `str.lower`
    and `str.strip` (all keywords involved are ASCII).
  * `datetime` values are modelled at day granularity (a `Date` record),
    which is the granularity at which every verified claim observes them.
  * Database rows are lists in insertion order; autoincrement ids are an
    explicit counter in the store.  The HTTP 400/404 responses raised by
    the command endpoint are modelled as explicit outcome constructors.
-/

/-! ### Characters and text -/

abbrev Text := List Char

def str (s : String) : Text := s.data

/-- ASCII model of the regex class `\d`. -/
def isDigitA (c : Char) : Bool := decide (48 ≤ c.toNat ∧ c.toNat ≤ 57)

/-- ASCII model of the regex class `\w` (letters, digits, underscore). -/
def isWordA (c : Char) : Bool :=
  decide ((65 ≤ c.toNat ∧ c.toNat ≤ 90) ∨ (97 ≤ c.toNat ∧ c.toNat ≤ 122) ∨
    (48 ≤ c.toNat ∧ c.toNat ≤ 57) ∨ c.toNat = 95)

/-- ASCII model of Python whitespace (the regex class `\s`). -/
def isPySpace (c : Char) : Bool :=
  decide (c.toNat = 32 ∨ c.toNat = 9 ∨ c.toNat = 10 ∨ c.toNat = 13 ∨
    c.toNat = 11 ∨ c.toNat = 12)

/-- The capture class `[a-zA-Z0-9 _-]` of the category regexes. -/
def isCatChar (c : Char) : Bool :=
  decide ((65 ≤ c.toNat ∧ c.toNat ≤ 90) ∨ (97 ≤ c.toNat ∧ c.toNat ≤ 122) ∨
    (48 ≤ c.toNat ∧ c.toNat ≤ 57) ∨ c.toNat = 95 ∨ c.toNat = 45 ∨ c.toNat = 32)

/-- ASCII model of `str.lower` applied to one character. -/
def lowerChar (c : Char) : Char :=
  if 65 ≤ c.toNat ∧ c.toNat ≤ 90 then Char.ofNat (c.toNat + 32) else c

/-- ASCII model of `str.lower`. -/
def pyLower (t : Text) : Text := t.map lowerChar

/-- ASCII model of `str.strip`. -/
def pyStrip (t : Text) : Text :=
  ((t.dropWhile isPySpace).reverse.dropWhile isPySpace).reverse

/-- Numeric value of a digit run (`int` / the integer part of `float`). -/
def digsVal (l : Text) : Nat := l.foldl (fun a c => 10 * a + (c.toNat - 48)) 0

/-- Boolean prefix test on character lists. -/
def isPre : Text → Text → Bool
  | [], _ => true
  | _ :: _, [] => false
  | a :: as, b :: bs => a == b && isPre as bs

/-- Python's substring operator `needle in hay`. -/
def containsSub (needle : Text) : Text → Bool
  | [] => isPre needle []
  | c :: t => isPre needle (c :: t) || containsSub needle t

/-! ### Dates -/

structure Date where
  year : Nat
  month : Nat
  day : Nat
deriving DecidableEq, Repr

/-- Gregorian leap-year rule (as used by `calendar.monthrange`). -/
def isLeap (y : Nat) : Prop := y % 4 = 0 ∧ (y % 100 ≠ 0 ∨ y % 400 = 0)

instance (y : Nat) : Decidable (isLeap y) := by unfold isLeap; infer_instance

/-- Number of days in a month (`calendar.monthrange(y, m)[1]`). -/
def daysInMonth (y m : Nat) : Nat :=
  if m = 2 then (if isLeap y then 29 else 28)
  else if m = 4 ∨ m = 6 ∨ m = 9 ∨ m = 11 then 30
  else 31

/-- Chronological order on dates (the order used by SQL date comparison). -/
def dateLeP (a b : Date) : Prop :=
  a.year < b.year ∨ (a.year = b.year ∧
    (a.month < b.month ∨ (a.month = b.month ∧ a.day ≤ b.day)))

def dateLtP (a b : Date) : Prop :=
  a.year < b.year ∨ (a.year = b.year ∧
    (a.month < b.month ∨ (a.month = b.month ∧ a.day < b.day)))

instance (a b : Date) : Decidable (dateLeP a b) := by
  unfold dateLeP; infer_instance

instance (a b : Date) : Decidable (dateLtP a b) := by
  unfold dateLtP; infer_instance

/-- The day after `d` (rolls over month and year ends). -/
def nextDay (d : Date) : Date :=
  if d.day < daysInMonth d.year d.month then ⟨d.year, d.month, d.day + 1⟩
  else if d.month < 12 then ⟨d.year, d.month + 1, 1⟩
  else ⟨d.year + 1, 1, 1⟩

/-- `d + timedelta(days = k)`. -/
def addDays : Nat → Date → Date
  | 0, d => d
  | k + 1, d => nextDay (addDays k d)

/-- One calendar month later, day-of-month clamped to the target month's
length; translated from the monthly branch of `run_due_recurrences`:
`y = year + (1 if month == 12 else 0)`, `m = 1 if month == 12 else month+1`,
`day = min(day, monthrange(y, m)[1])`. -/
def addMonthClamped (d : Date) : Date :=
  let y := d.year + (if d.month = 12 then 1 else 0)
  let m := if d.month = 12 then 1 else d.month + 1
  ⟨y, m, min d.day (daysInMonth y m)⟩

/-! ### Data model (`Transaction`, `Budget`, `Goal`, `RecurringTransaction`) -/

structure Transaction where
  id : Nat
  amount : ℚ
  category : Text
  description : Text
  ts : Date
  is_expense : Bool
  recurring_id : Option Nat
deriving DecidableEq, Repr

structure Budget where
  id : Nat
  category : Text
  monthly_amount : ℚ
  currency : Text
deriving DecidableEq, Repr

structure Goal where
  id : Nat
  title : Text
  target_amount : ℚ
  start_date : Date
  end_date : Option Date
deriving DecidableEq, Repr

structure RecurringTransaction where
  id : Nat
  description : Text
  amount : ℚ
  category : Text
  is_expense : Bool
  interval : Text
  next_run : Date
deriving DecidableEq, Repr

/-- The persistent state behind the SQLite session: rows in insertion order
plus the autoincrement counters. -/
structure Store where
  transactions : List Transaction
  budgets : List Budget
  goals : List Goal
  recurring : List RecurringTransaction
  nextTxId : Nat
  nextBudgetId : Nat
deriving DecidableEq, Repr

def emptyStore : Store := ⟨[], [], [], [], 1, 1⟩

/-! ### Lexical extraction (the regexes of `parse_command` / `handle_command`) -/

/-- First match of `re.search(r"(\d+(\.\d{1,2})?)", text)` as a rational:
leftmost digit starts the match, `\d+` is greedy, the fractional group
takes one or two digits when a dot followed by a digit is present. -/
def extractAmount : Text → Option ℚ
  | [] => none
  | c :: t =>
    if isDigitA c then
      let ip := (c :: t).takeWhile isDigitA
      let rest := (c :: t).dropWhile isDigitA
      match rest with
      | '.' :: r =>
        let fr := (r.takeWhile isDigitA).take 2
        if fr = [] then some ((digsVal ip : ℚ))
        else some ((digsVal ip : ℚ) + (digsVal fr : ℚ) / (10 : ℚ) ^ fr.length)
      | _ => some ((digsVal ip : ℚ))
    else extractAmount t

/-- Match of `\s+([a-zA-Z0-9 _-]+)` immediately after a keyword, with the
backtracking Python's engine performs when the greedy `\s+` has swallowed
the spaces the capture class needs: the capture then restarts at the last
plain-space position inside the whitespace run. -/
def afterKw (rest : Text) : Option Text :=
  let w := rest.takeWhile isPySpace
  if w = [] then none
  else
    let r := rest.drop w.length
    let cap := r.takeWhile isCatChar
    if cap ≠ [] then some cap
    else
      match ((List.range w.length).reverse.filter
          (fun k => decide (1 ≤ k) && decide (w.get? k = some ' '))).head? with
      | some k => some ((w.drop k ++ r).takeWhile isCatChar)
      | none => none

/-- Anchored match of one of the alternation keywords at the head of `cs`,
returning the remainder after the keyword. -/
def catKeywordRest (kws : List Text) (cs : Text) : Option Text :=
  kws.findSome? fun k => if isPre k cs then some (cs.drop k.length) else none

/-- Leftmost match of `(?:kw1|kw2)\s+([a-zA-Z0-9 _-]+)`, capture group. -/
def extractCatScan (kws : List Text) : Text → Option Text
  | [] => none
  | c :: t =>
    match (match catKeywordRest kws (c :: t) with
           | some rest => afterKw rest
           | none => none) with
    | some cap => some cap
    | none => extractCatScan kws t

/-- Category for the expense branch:
`re.search(r"(?:on|for)\s+([a-zA-Z0-9 _-]+)", text)`, stripped,
default `"general"`. -/
def extractCategoryExpense (t : Text) : Text :=
  match extractCatScan [str "on", str "for"] t with
  | some cap => pyStrip cap
  | none => str "general"

/-- Category for the income branch:
`re.search(r"(?:from|for)\s+([a-zA-Z0-9 _-]+)", text)`, stripped,
default `"income"`. -/
def extractCategoryIncome (t : Text) : Text :=
  match extractCatScan [str "from", str "for"] t with
  | some cap => pyStrip cap
  | none => str "income"

/-- First match of `re.search(r"\b(\d{1,6})\b", text)`: the leftmost maximal
digit run of length at most six delimited by word boundaries.  The scan
carries whether the previous character was a word character. -/
def findIdFrom : Bool → Text → Option Nat
  | _, [] => none
  | prev, c :: cs =>
    if !prev && isDigitA c then
      let run := (c :: cs).takeWhile isDigitA
      let rest := (c :: cs).drop run.length
      if run.length ≤ 6 ∧ (rest = [] ∨ isWordA rest.head! = false) then
        some (digsVal run)
      else findIdFrom (isWordA c) cs
    else findIdFrom (isWordA c) cs

def findDeleteId (t : Text) : Option Nat := findIdFrom false t

/-! ### Intent classification (`parse_command`) -/

inductive Intent where
  | add | add_income | summary | list | delete | get_tx | unknown
deriving DecidableEq, Repr

inductive Parsed where
  | add (amount : Option ℚ) (category : Text) (description : Text)
  | add_income (amount : Option ℚ) (category : Text) (description : Text)
  | summary
  | list
  | delete
  | get_tx (txid : Nat)
  | unknown
deriving DecidableEq, Repr

def Parsed.intent : Parsed → Intent
  | .add .. => .add
  | .add_income .. => .add_income
  | .summary => .summary
  | .list => .list
  | .delete => .delete
  | .get_tx _ => .get_tx
  | .unknown => .unknown

/-- Translation of `parse_command`: ordered keyword matching on the
lowercased text, then the bare-numeral rule, else unknown.  The `date`
field of the Python dict (`datetime.utcnow()`) is supplied by the caller
of `handleCommand` as `now`. -/
def parseCommand (raw : Text) : Parsed :=
  let t := pyLower raw
  if containsSub (str "spent") t || containsSub (str "bought") t ||
      containsSub (str "pay") t || containsSub (str "purchase") t then
    .add (extractAmount t) (extractCategoryExpense t) t
  else if containsSub (str "earned") t || containsSub (str "salary") t ||
      containsSub (str "received") t then
    .add_income (extractAmount t) (extractCategoryIncome t) t
  else if containsSub (str "summary") t || containsSub (str "balance") t then
    .summary
  else if containsSub (str "list") t || containsSub (str "transactions") t then
    .list
  else if containsSub (str "delete") t || containsSub (str "remove") t then
    .delete
  else if pyStrip t ≠ [] ∧ (pyStrip t).all isDigitA = true ∧
      (pyStrip t).length < 7 then
    .get_tx (digsVal (pyStrip t))
  else
    .unknown

/-! ### Command outcomes -/

inductive Warning where
  | exceeded (spent budget : ℚ)
  | nearLimit (spent budget : ℚ)
deriving DecidableEq, Repr

inductive Outcome where
  | added (tx : Transaction) (budget_warning : Option Warning)
  | needAmount (description category : Text)
  | summaryOut (income expense balance : ℚ)
  | listOut (rows : List Transaction)
  | found (tx : Transaction)
  | deleted (id : Nat)
  | updated (id : Nat)
  | notFound
  | invalidInput
  | unrecognized (parsed : Parsed)
deriving DecidableEq, Repr

/-! ### Aggregation helpers -/

/-- Python `sum(r.amount for r in rows)`: a left fold from `0`. -/
def sumAmounts (l : List Transaction) : ℚ :=
  l.foldl (fun a t => a + t.amount) 0

/-- Month-to-date expense sum for one category: the query
`category == c and is_expense and ts >= datetime(now.year, now.month, 1)`. -/
def monthSpent (now : Date) (c : Text) (txs : List Transaction) : ℚ :=
  sumAmounts (txs.filter fun t =>
    decide (t.category = c) && t.is_expense &&
      decide (dateLeP ⟨now.year, now.month, 1⟩ t.ts))

/-- Threshold check after an add: `pct = spent / monthly if monthly > 0 else
0`; `pct ≥ 1` is exceeded, else `pct ≥ 0.85` is near-limit. -/
def budgetWarning (spent : ℚ) : Option Budget → Option Warning
  | none => none
  | some b =>
    let pct := if 0 < b.monthly_amount then spent / b.monthly_amount else 0
    if 1 ≤ pct then some (.exceeded spent b.monthly_amount)
    else if (85 / 100 : ℚ) ≤ pct then some (.nearLimit spent b.monthly_amount)
    else none

/-! ### Transaction list operations -/

/-- `ORDER BY ts DESC` (insertion sort, stable on equal timestamps). -/
def insertTsDesc (t : Transaction) : List Transaction → List Transaction
  | [] => [t]
  | u :: us => if dateLtP u.ts t.ts then t :: u :: us else u :: insertTsDesc t us

def sortTsDesc : List Transaction → List Transaction
  | [] => []
  | t :: ts => insertTsDesc t (sortTsDesc ts)

/-- Delete the first row with the given id (`query.filter(id==n).first()`
then `delete`). -/
def removeFirstTx (n : Nat) : List Transaction → List Transaction
  | [] => []
  | t :: ts => if t.id = n then ts else t :: removeFirstTx n ts

/-! ### The command endpoint (`handle_command`) -/

/-- Translation of the `/api/command` handler.  `now` stands for
`datetime.utcnow()`; the delete-id regex runs on the raw (un-lowercased)
request text exactly as in the source. -/
def handleCommand (now : Date) (raw : Text) (st : Store) : Store × Outcome :=
  match parseCommand raw with
  | .add amt cat desc =>
    match amt with
    | none => (st, .needAmount desc cat)
    | some q =>
      let tx : Transaction := ⟨st.nextTxId, q, cat, desc, now, true, none⟩
      let txs := st.transactions ++ [tx]
      let spent := monthSpent now cat txs
      let w := budgetWarning spent
        (st.budgets.find? fun b => decide (b.category = cat))
      ({ st with transactions := txs, nextTxId := st.nextTxId + 1 }, .added tx w)
  | .add_income amt cat desc =>
    match amt with
    | none => (st, .needAmount desc cat)
    | some q =>
      let tx : Transaction := ⟨st.nextTxId, q, cat, desc, now, false, none⟩
      let txs := st.transactions ++ [tx]
      let spent := monthSpent now cat txs
      let w := budgetWarning spent
        (st.budgets.find? fun b => decide (b.category = cat))
      ({ st with transactions := txs, nextTxId := st.nextTxId + 1 }, .added tx w)
  | .summary =>
    let income := sumAmounts (st.transactions.filter fun t => !t.is_expense)
    let expense := sumAmounts (st.transactions.filter fun t => t.is_expense)
    (st, .summaryOut income expense (income - expense))
  | .list => (st, .listOut ((sortTsDesc st.transactions).take 200))
  | .get_tx n =>
    match st.transactions.find? (fun t => decide (t.id = n)) with
    | none => (st, .notFound)
    | some tx => (st, .found tx)
  | .delete =>
    match findDeleteId raw with
    | none => (st, .invalidInput)
    | some n =>
      match st.transactions.find? (fun t => decide (t.id = n)) with
      | none => (st, .notFound)
      | some _ =>
        ({ st with transactions := removeFirstTx n st.transactions }, .deleted n)
  | .unknown => (st, .unrecognized .unknown)

/-! ### Budget upsert (`create_budget`) -/

inductive UpsertAction where
  | created | updatedB
deriving DecidableEq, Repr

/-- Update the first budget row matching the category in place. -/
def updateFirstBudget (cat : Text) (amt : ℚ) (cur : Text) :
    List Budget → List Budget
  | [] => []
  | b :: bs =>
    if b.category = cat then
      { b with monthly_amount := amt, currency := cur } :: bs
    else b :: updateFirstBudget cat amt cur bs

/-- Translation of `create_budget`: upsert keyed by category, reporting
whether a row was created or updated. -/
def createBudget (cat : Text) (amt : ℚ) (cur : Text) (st : Store) :
    Store × UpsertAction :=
  if st.budgets.any (fun b => decide (b.category = cat)) then
    ({ st with budgets := updateFirstBudget cat amt cur st.budgets }, .updatedB)
  else
    ({ st with
        budgets := st.budgets ++ [⟨st.nextBudgetId, cat, amt, cur⟩],
        nextBudgetId := st.nextBudgetId + 1 }, .created)

/-! ### Recurrence scheduler (`run_due_recurrences`) -/

/-- Advance `next_run` by the rule's interval: one clamped calendar month
for `"monthly"`, otherwise seven days (the source's `else` branch). -/
def advanceRule (r : RecurringTransaction) : Date :=
  if r.interval = str "monthly" then addMonthClamped r.next_run
  else addDays 7 r.next_run

/-- The transaction materialized for a due rule, dated at the pre-advance
`next_run` and back-referencing the rule. -/
def materialize (nid : Nat) (r : RecurringTransaction) : Transaction :=
  ⟨nid, r.amount, r.category, str "[recurring] " ++ r.description,
    r.next_run, r.is_expense, some r.id⟩

/-- Materialize a transaction for each due rule, with sequential ids. -/
def materializeAll (nid : Nat) : List RecurringTransaction → List Transaction
  | [] => []
  | r :: rs => materialize nid r :: materializeAll (nid + 1) rs

/-- Translation of `run_due_recurrences`: one pass creates one transaction
per rule with `next_run <= today` and advances that rule's `next_run` by
one interval. -/
def runDue (today : Date) (st : Store) : Store × List Transaction :=
  let due := st.recurring.filter fun r => decide (dateLeP r.next_run today)
  let created := materializeAll st.nextTxId due
  let newRecs := st.recurring.map fun r =>
    if dateLeP r.next_run today then { r with next_run := advanceRule r } else r
  ({ st with
      transactions := st.transactions ++ created,
      recurring := newRecs,
      nextTxId := st.nextTxId + created.length }, created)

/-! ### Transaction edit (`edit_transaction`, from `main_20250909235636.py`) -/

structure EditRequest where
  id : Nat
  description : Text
  amount : ℚ
  is_expense : Bool
deriving DecidableEq, Repr

/-- Overwrite description, amount and expense flag of the first row with the
given id. -/
def updateFirstTx (p : EditRequest) : List Transaction → List Transaction
  | [] => []
  | t :: ts =>
    if t.id = p.id then
      { t with
          description := p.description,
          amount := p.amount,
          is_expense := p.is_expense } :: ts
    else t :: updateFirstTx p ts

/-- Translation of `edit_transaction`: 404 when the id is absent, otherwise
the row's mutable fields are overwritten with the request values verbatim. -/
def editTransaction (p : EditRequest) (st : Store) : Store × Outcome :=
  match st.transactions.find? (fun t => decide (t.id = p.id)) with
  | none => (st, .notFound)
  | some _ =>
    ({ st with transactions := updateFirstTx p st.transactions }, .updated p.id)

/-! ### Concrete fixtures used by witness theorems -/

def txA : Transaction := ⟨1, 5, str "general", str "x", ⟨2025, 1, 1⟩, true, none⟩

def storeA : Store := { emptyStore with transactions := [txA], nextTxId := 2 }

def ruleA : RecurringTransaction :=
  ⟨1, str "rent", 100, str "general", true, str "monthly", ⟨2025, 1, 31⟩⟩

def storeR : Store := { emptyStore with recurring := [ruleA] }

def ruleOverdue : RecurringTransaction :=
  ⟨1, str "rent", 100, str "general", true, str "monthly", ⟨2024, 1, 1⟩⟩

def storeOverdue : Store := { emptyStore with recurring := [ruleOverdue] }

def budgetFood : Budget := ⟨1, str "food", 100, str "USD"⟩

def storeBudget : Store :=
  { emptyStore with
      budgets := [budgetFood],
      transactions := [⟨1, 80, str "food", str "prior", ⟨2025, 3, 2⟩, true, none⟩],
      nextTxId := 2,
      nextBudgetId := 2 }

/-! ### Lemmas about text scanning -/

theorem isPre_iff (k : Text) : ∀ l : Text, isPre k l = true ↔ k <+: l := by
  induction k with
  | nil => intro l; simp [isPre]
  | cons a as ih =>
    intro l
    cases l with
    | nil => simp [isPre]
    | cons b bs =>
      simp only [isPre, Bool.and_eq_true, beq_iff_eq, ih]
      constructor
      · rintro ⟨rfl, u, rfl⟩
        exact ⟨u, rfl⟩
      · rintro ⟨u, h⟩
        injection h with h1 h2
        exact ⟨h1, u, h2⟩

theorem infix_cons_split (k : Text) (c : Char) (t : Text) :
    k <:+: (c :: t) ↔ k <+: (c :: t) ∨ k <:+: t := by
  constructor
  · rintro ⟨s, u, h⟩
    cases s with
    | nil => exact Or.inl ⟨u, by simpa using h⟩
    | cons a s' =>
      injection h with h1 h2
      exact Or.inr ⟨s', u, h2⟩
  · rintro (⟨u, h⟩ | ⟨s, u, h⟩)
    · exact ⟨[], u, by simpa using h⟩
    · exact ⟨c :: s, u, by simp [h]⟩

theorem containsSub_iff (k : Text) : ∀ t : Text, containsSub k t = true ↔ k <:+: t := by
  intro t
  induction t with
  | nil =>
    simp only [containsSub, isPre_iff]
    constructor
    · rintro ⟨u, h⟩
      exact ⟨[], u, by simpa using h⟩
    · rintro ⟨s, u, h⟩
      simp only [List.append_eq_nil] at h
      exact ⟨[], by simp [h.1.2]⟩
  | cons c t ih =>
    simp only [containsSub, Bool.or_eq_true, isPre_iff, ih, infix_cons_split]

/-! ### Lemmas about amount extraction -/

theorem extractAmount_eq_none (l : Text) (h : ∀ c ∈ l, isDigitA c = false) :
    extractAmount l = none := by
  induction l with
  | nil => rfl
  | cons c t ih =>
    have hc := h c (by simp)
    simp only [extractAmount, hc, Bool.false_eq_true, if_false]
    exact ih fun c hc => h c (List.mem_cons_of_mem _ hc)

theorem lowerChar_digit (c : Char) : isDigitA (lowerChar c) = isDigitA c := by
  unfold lowerChar
  split
  · rename_i h
    have hv : (c.toNat + 32).isValidChar := Or.inl (by omega)
    have ht : (Char.ofNat (c.toNat + 32)).toNat = c.toNat + 32 := by
      rw [Char.ofNat, dif_pos hv]
      rfl
    simp only [isDigitA, ht, decide_eq_decide]
    omega
  · rfl

theorem extractAmount_nonneg : ∀ (l : Text) (q : ℚ),
    extractAmount l = some q → 0 ≤ q := by
  intro l
  induction l with
  | nil => intro q h; simp [extractAmount] at h
  | cons c t ih =>
    intro q h
    rw [extractAmount] at h
    split at h
    · dsimp only at h
      split at h
      · split at h
        · injection h with h'
          subst h'
          positivity
        · injection h with h'
          subst h'
          positivity
      · injection h with h'
        subst h'
        positivity
    · exact ih q h

/-! ### Inversion lemmas for `parseCommand` -/

theorem parseCommand_add_inv (raw : Text) (a : Option ℚ) (cat desc : Text)
    (h : parseCommand raw = Parsed.add a cat desc) :
    a = extractAmount (pyLower raw) ∧ cat = extractCategoryExpense (pyLower raw) ∧
      desc = pyLower raw := by
  rw [parseCommand] at h
  repeat' split at h
  all_goals first
    | (injection h with h1 h2 h3; exact ⟨h1.symm, h2.symm, h3.symm⟩)
    | exact absurd h (by simp)

theorem parseCommand_add_income_inv (raw : Text) (a : Option ℚ) (cat desc : Text)
    (h : parseCommand raw = Parsed.add_income a cat desc) :
    a = extractAmount (pyLower raw) ∧ cat = extractCategoryIncome (pyLower raw) ∧
      desc = pyLower raw := by
  rw [parseCommand] at h
  repeat' split at h
  all_goals first
    | (injection h with h1 h2 h3; exact ⟨h1.symm, h2.symm, h3.symm⟩)
    | exact absurd h (by simp)

theorem pyLower_noDigit (l : Text) (h : ∀ c ∈ l, isDigitA c = false) :
    ∀ c ∈ pyLower l, isDigitA c = false := by
  intro c hc
  rcases List.mem_map.mp hc with ⟨d, hd, rfl⟩
  rw [lowerChar_digit]
  exact h d hd

/-! ### Lemmas about sums -/

theorem foldl_add_amount (l : List Transaction) :
    ∀ a : ℚ, l.foldl (fun s t => s + t.amount) a = a + (l.map Transaction.amount).sum := by
  induction l with
  | nil => intro a; simp
  | cons t ts ih =>
    intro a
    simp only [List.foldl_cons, List.map_cons, List.sum_cons, ih]
    ring

theorem sumAmounts_eq (l : List Transaction) :
    sumAmounts l = (l.map Transaction.amount).sum := by
  simpa using foldl_add_amount l 0

/-! ### Lemmas about dates -/

theorem dateLtP_trans {a b c : Date} (h1 : dateLtP a b) (h2 : dateLtP b c) :
    dateLtP a c := by
  unfold dateLtP at *
  omega

theorem dateLtP_nextDay (d : Date) : dateLtP d (nextDay d) := by
  unfold nextDay dateLtP
  repeat' split
  all_goals simp_all

theorem dateLtP_addDays (k : Nat) (d : Date) (hk : 0 < k) :
    dateLtP d (addDays k d) := by
  induction k with
  | zero => omega
  | succ n ih =>
    rcases Nat.eq_zero_or_pos n with h | h
    · subst h
      simpa [addDays] using dateLtP_nextDay d
    · exact dateLtP_trans (ih h) (dateLtP_nextDay (addDays n d))

theorem dateLtP_addMonthClamped (d : Date) : dateLtP d (addMonthClamped d) := by
  unfold addMonthClamped dateLtP
  split
  all_goals simp_all

theorem dateLtP_advanceRule (r : RecurringTransaction) :
    dateLtP r.next_run (advanceRule r) := by
  unfold advanceRule
  split
  · exact dateLtP_addMonthClamped r.next_run
  · exact dateLtP_addDays 7 r.next_run (by omega)

/-! ### Lemmas about the row-list operations -/

theorem mem_removeFirstTx (n : Nat) : ∀ (l : List Transaction) (t : Transaction),
    t ∈ removeFirstTx n l → t ∈ l := by
  intro l
  induction l with
  | nil => intro t h; exact absurd h (by simp [removeFirstTx])
  | cons u us ih =>
    intro t h
    rw [removeFirstTx] at h
    split at h
    · exact List.mem_cons_of_mem _ h
    · rcases List.mem_cons.mp h with h | h
      · exact h ▸ List.mem_cons_self _ _
      · exact List.mem_cons_of_mem _ (ih t h)

theorem find?_removeFirstTx (n : Nat) : ∀ l : List Transaction,
    (l.map Transaction.id).Nodup →
    (removeFirstTx n l).find? (fun t => decide (t.id = n)) = none := by
  intro l
  induction l with
  | nil => intro _; rfl
  | cons u us ih =>
    intro hnd
    simp only [List.map_cons, List.nodup_cons] at hnd
    rw [removeFirstTx]
    split
    · rename_i hu
      rw [List.find?_eq_none]
      intro t ht
      simp only [decide_eq_true_eq]
      intro htn
      exact hnd.1 (hu ▸ htn ▸ List.mem_map_of_mem Transaction.id ht)
    · rename_i hu
      rw [List.find?_cons_of_neg _ (by simpa using hu)]
      exact ih hnd.2

theorem mem_updateFirstTx (p : EditRequest) : ∀ (l : List Transaction) (t : Transaction),
    t ∈ updateFirstTx p l → t ∈ l ∨ t.amount = p.amount := by
  intro l
  induction l with
  | nil => intro t h; exact absurd h (by simp [updateFirstTx])
  | cons u us ih =>
    intro t h
    rw [updateFirstTx] at h
    split at h
    · rcases List.mem_cons.mp h with h | h
      · exact Or.inr (by simp [h])
      · exact Or.inl (List.mem_cons_of_mem _ h)
    · rcases List.mem_cons.mp h with h | h
      · exact Or.inl (h ▸ List.mem_cons_self _ _)
      · rcases ih t h with h | h
        · exact Or.inl (List.mem_cons_of_mem _ h)
        · exact Or.inr h

theorem updateFirstTx_amount (p : EditRequest) : ∀ l : List Transaction,
    (l.map Transaction.id).Nodup →
    ∀ t ∈ updateFirstTx p l, t.id = p.id → t.amount = p.amount := by
  intro l
  induction l with
  | nil => intro _ t h; exact absurd h (by simp [updateFirstTx])
  | cons u us ih =>
    intro hnd t ht htid
    simp only [List.map_cons, List.nodup_cons] at hnd
    rw [updateFirstTx] at ht
    split at ht
    · rename_i hu
      rcases List.mem_cons.mp ht with h | h
      · simp [h]
      · exact absurd (hu ▸ htid ▸ List.mem_map_of_mem Transaction.id h) hnd.1
    · rename_i hu
      rcases List.mem_cons.mp ht with h | h
      · exact absurd (h ▸ htid) hu
      · exact ih hnd.2 t h htid

/-! ### Lemmas about budget upsert -/

theorem updateFirstBudget_filter_length (cat : Text) (a : ℚ) (cur : Text) :
    ∀ l : List Budget,
    ((updateFirstBudget cat a cur l).filter
      (fun b => decide (b.category = cat))).length =
    (l.filter (fun b => decide (b.category = cat))).length := by
  intro l
  induction l with
  | nil => rfl
  | cons b bs ih =>
    rw [updateFirstBudget]
    split
    · rename_i hb
      simp [List.filter, hb]
    · rename_i hb
      simp [List.filter, hb, ih]

theorem updateFirstBudget_mem (cat : Text) (a : ℚ) (cur : Text) :
    ∀ l : List Budget,
    (l.filter (fun b => decide (b.category = cat))).length ≤ 1 →
    ∀ b ∈ updateFirstBudget cat a cur l, b.category = cat →
      b.monthly_amount = a := by
  intro l
  induction l with
  | nil => intro _ b h; exact absurd h (by simp [updateFirstBudget])
  | cons x xs ih =>
    intro hlen b hb hbcat
    rw [updateFirstBudget] at hb
    split at hb
    · rename_i hx
      rcases List.mem_cons.mp hb with h | h
      · simp [h]
      · exfalso
        have hbx : b ∈ xs.filter (fun b => decide (b.category = cat)) :=
          List.mem_filter.mpr ⟨h, by simpa using hbcat⟩
        have : 2 ≤ ((x :: xs).filter (fun b => decide (b.category = cat))).length := by
          have hxf : (x :: xs).filter (fun b => decide (b.category = cat)) =
              x :: xs.filter (fun b => decide (b.category = cat)) := by
            simp [List.filter, hx]
          rw [hxf]
          have := List.length_pos.mpr (List.ne_nil_of_mem hbx)
          simp only [List.length_cons]
          omega
        omega
    · rename_i hx
      rcases List.mem_cons.mp hb with h | h
      · exact absurd (h ▸ hbcat) hx
      · refine ih ?_ b h hbcat
        have hxf : (x :: xs).filter (fun b => decide (b.category = cat)) =
            xs.filter (fun b => decide (b.category = cat)) := by
          simp [List.filter, hx]
        rw [hxf] at hlen
        exact hlen

theorem updateFirstBudget_any (cat : Text) (a : ℚ) (cur : Text) :
    ∀ l : List Budget,
    l.any (fun b => decide (b.category = cat)) = true →
    (updateFirstBudget cat a cur l).any (fun b => decide (b.category = cat)) = true := by
  intro l
  induction l with
  | nil => intro h; exact absurd h (by simp)
  | cons x xs ih =>
    intro hany
    rw [updateFirstBudget]
    split
    · rename_i hx
      simp [hx]
    · rename_i hx
      simp only [List.any_cons, Bool.or_eq_true, decide_eq_true_eq] at hany
      rcases hany with h | h
      · exact absurd h hx
      · simp [ih h]

/-! ### Lemmas about the recurrence pass -/

theorem materializeAll_filter (i : Nat) : ∀ (rs : List RecurringTransaction) (n : Nat),
    ((materializeAll n rs).filter (fun t => decide (t.recurring_id = some i))).length
    = (rs.filter (fun q => decide (q.id = i))).length := by
  intro rs
  induction rs with
  | nil => intro n; rfl
  | cons q qs ih =>
    intro n
    rw [materializeAll]
    by_cases hq : q.id = i
    · simp [List.filter, materialize, hq, ih]
    · simp [List.filter, materialize, hq, ih]

theorem mem_materializeAll : ∀ (rs : List RecurringTransaction) (n : Nat)
    (t : Transaction), t ∈ materializeAll n rs →
    ∃ q ∈ rs, t.recurring_id = some q.id ∧ t.ts = q.next_run := by
  intro rs
  induction rs with
  | nil => intro n t h; exact absurd h (by simp [materializeAll])
  | cons q qs ih =>
    intro n t h
    rw [materializeAll] at h
    rcases List.mem_cons.mp h with h | h
    · exact ⟨q, List.mem_cons_self _ _, by simp [h, materialize]⟩
    · rcases ih (n + 1) t h with ⟨p, hp, h1, h2⟩
      exact ⟨p, List.mem_cons_of_mem _ hp, h1, h2⟩

theorem filter_id_length_one (r : RecurringTransaction) :
    ∀ l : List RecurringTransaction,
    (l.map RecurringTransaction.id).Nodup → r ∈ l →
    (l.filter (fun q => decide (q.id = r.id))).length = 1 := by
  intro l
  induction l with
  | nil => intro _ h; exact absurd h (by simp)
  | cons q qs ih =>
    intro hnd hm
    simp only [List.map_cons, List.nodup_cons] at hnd
    rcases List.mem_cons.mp hm with h | h
    · have hqid : q.id = r.id := by rw [h]
      have hqs : qs.filter (fun p => decide (p.id = r.id)) = [] := by
        rw [List.filter_eq_nil_iff]
        intro p hp
        simp only [decide_eq_true_eq]
        intro hpq
        apply hnd.1
        have hmm := List.mem_map_of_mem RecurringTransaction.id hp
        rw [hpq, ← hqid] at hmm
        exact hmm
      simp [List.filter, hqid, hqs]
    · have hq : ¬q.id = r.id := by
        intro he
        exact hnd.1 (he ▸ List.mem_map_of_mem RecurringTransaction.id h)
      simp [List.filter, hq, ih hnd.2 h]

/-! ### Claim C3 -/

/-- Claim C3: for every store state, the summary operation returns income
equal to the sum of `amount` over all stored transactions with `is_expense`
false, expense equal to the sum over those with `is_expense` true, and
balance equal to income minus expense, over all transactions with no date
filter. -/
theorem summary_totals (now : Date) (raw : Text) (st : Store)
    (h : (parseCommand raw).intent = Intent.summary) :
    handleCommand now raw st =
      (st, Outcome.summaryOut
        (((st.transactions.filter fun t => decide (t.is_expense = false)).map
          Transaction.amount).sum)
        (((st.transactions.filter fun t => decide (t.is_expense = true)).map
          Transaction.amount).sum)
        ((((st.transactions.filter fun t => decide (t.is_expense = false)).map
          Transaction.amount).sum) -
         (((st.transactions.filter fun t => decide (t.is_expense = true)).map
          Transaction.amount).sum))) := by
  have e1 : (fun t : Transaction => !t.is_expense) =
      (fun t : Transaction => decide (t.is_expense = false)) :=
    funext fun t => by cases ht : t.is_expense <;> simp
  have e2 : (fun t : Transaction => t.is_expense) =
      (fun t : Transaction => decide (t.is_expense = true)) :=
    funext fun t => by cases ht : t.is_expense <;> simp
  cases hp : parseCommand raw
  case summary =>
    unfold handleCommand
    rw [hp]
    dsimp only
    rw [e1, e2, sumAmounts_eq, sumAmounts_eq]
  all_goals (rw [hp] at h; simp [Parsed.intent] at h)

/-- Witness for C3: the scenario with zero transactions ever recorded
returns income 0, expense 0, balance 0. -/
theorem summary_totals_witness :
    handleCommand ⟨2025, 1, 1⟩ (str "summary") emptyStore =
      (emptyStore, Outcome.summaryOut 0 0 0) := by
  have h := summary_totals ⟨2025, 1, 1⟩ (str "summary") emptyStore (by decide)
  simpa [emptyStore] using h

/-! ### Claim C10 -/

/-- Claim C10: for every input whose classified intent is summary, list,
get-by-id or unknown, the command path is read-only: the store after the
call equals the store before the call. -/
theorem readonly_intents (now : Date) (raw : Text) (st : Store)
    (h : (parseCommand raw).intent = Intent.summary ∨
      (parseCommand raw).intent = Intent.list ∨
      (parseCommand raw).intent = Intent.get_tx ∨
      (parseCommand raw).intent = Intent.unknown) :
    (handleCommand now raw st).1 = st := by
  cases hp : parseCommand raw
  case add a c d => rw [hp] at h; simp [Parsed.intent] at h
  case add_income a c d => rw [hp] at h; simp [Parsed.intent] at h
  case delete => rw [hp] at h; simp [Parsed.intent] at h
  case summary => simp [handleCommand, hp]
  case list => simp [handleCommand, hp]
  case get_tx n =>
    rcases hf : st.transactions.find? (fun t => decide (t.id = n)) with _ | tx <;>
      simp [handleCommand, hp, hf]
  case unknown => simp [handleCommand, hp]

/-- Witness for C10: a lookup command on a store with one transaction
leaves the store unchanged. -/
theorem readonly_intents_witness :
    (handleCommand ⟨2025, 1, 1⟩ (str "99")
      { emptyStore with
          transactions := [⟨1, 5, str "general", str "x", ⟨2025, 1, 1⟩, true, none⟩],
          nextTxId := 2 }).1 =
    { emptyStore with
        transactions := [⟨1, 5, str "general", str "x", ⟨2025, 1, 1⟩, true, none⟩],
        nextTxId := 2 } :=
  readonly_intents ⟨2025, 1, 1⟩ (str "99") _ (Or.inr (Or.inr (Or.inl (by decide))))

/-! ### Claim C4 -/

/-- Claim C4: for every input classified as add-expense or add-income in
which no substring matches the amount pattern `\d+(\.\d{1,2})?`
(equivalently, containing no digit), the command path returns a need-amount
outcome carrying the partially parsed description and category, and never
creates a transaction: the store is unchanged. -/
theorem need_amount_no_digit (now : Date) (raw : Text) (st : Store)
    (hnd : ∀ c ∈ raw, isDigitA c = false) :
    (∀ a cat desc, parseCommand raw = Parsed.add a cat desc →
      a = none ∧ handleCommand now raw st = (st, Outcome.needAmount desc cat)) ∧
    (∀ a cat desc, parseCommand raw = Parsed.add_income a cat desc →
      a = none ∧ handleCommand now raw st = (st, Outcome.needAmount desc cat)) := by
  have hnone : extractAmount (pyLower raw) = none :=
    extractAmount_eq_none _ (pyLower_noDigit raw hnd)
  constructor
  · intro a cat desc hp
    have ha := (parseCommand_add_inv raw a cat desc hp).1
    have hanone : a = none := ha.trans hnone
    subst hanone
    refine ⟨rfl, ?_⟩
    unfold handleCommand
    rw [hp]
  · intro a cat desc hp
    have ha := (parseCommand_add_income_inv raw a cat desc hp).1
    have hanone : a = none := ha.trans hnone
    subst hanone
    refine ⟨rfl, ?_⟩
    unfold handleCommand
    rw [hp]

/-- Witness for C4: an add command with no numeral yields need-amount with
the parsed description and category, and the empty store stays empty. -/
theorem need_amount_no_digit_witness :
    handleCommand ⟨2025, 1, 1⟩ (str "spent money on food") emptyStore =
      (emptyStore, Outcome.needAmount (str "spent money on food") (str "food")) :=
  ((need_amount_no_digit ⟨2025, 1, 1⟩ (str "spent money on food") emptyStore
    (by decide)).1 none (str "food") (str "spent money on food") (by decide)).2

/-! ### Claim C7 -/

/-- Claim C7: for every input classified as delete: with no bare numeral of
at most six digits the outcome is invalid-input; with such a numeral `n`
naming no stored transaction the outcome is not-found and the store is
unchanged, so every retry yields not-found again; with `n` naming a stored
transaction, that transaction is removed and the outcome confirms id `n`,
and a second delete of the same id yields not-found. -/
theorem delete_behaviour (now : Date) (raw : Text) (st : Store)
    (hint : (parseCommand raw).intent = Intent.delete) :
    (findDeleteId raw = none →
      handleCommand now raw st = (st, Outcome.invalidInput)) ∧
    (∀ n, findDeleteId raw = some n →
      st.transactions.find? (fun t => decide (t.id = n)) = none →
      handleCommand now raw st = (st, Outcome.notFound)) ∧
    (∀ n u, findDeleteId raw = some n →
      (st.transactions.map Transaction.id).Nodup →
      u ∈ st.transactions → u.id = n →
      handleCommand now raw st =
        ({ st with transactions := removeFirstTx n st.transactions },
          Outcome.deleted n) ∧
      handleCommand now raw
          { st with transactions := removeFirstTx n st.transactions } =
        ({ st with transactions := removeFirstTx n st.transactions },
          Outcome.notFound)) := by
  have hp : parseCommand raw = Parsed.delete := by
    cases hpp : parseCommand raw
    all_goals first
      | rfl
      | (rw [hpp] at hint; simp [Parsed.intent] at hint)
  refine ⟨?_, ?_, ?_⟩
  · intro h
    unfold handleCommand
    rw [hp, h]
  · intro n hn hf
    unfold handleCommand
    rw [hp, hn]
    dsimp only
    rw [hf]
  · intro n u hn hnd hu huid
    have hsome : (st.transactions.find? (fun t => decide (t.id = n))).isSome := by
      rw [List.find?_isSome]
      exact ⟨u, hu, by simpa using huid⟩
    rcases Option.isSome_iff_exists.mp hsome with ⟨v, hv⟩
    constructor
    · unfold handleCommand
      rw [hp, hn]
      dsimp only
      rw [hv]
    · have hnone : (removeFirstTx n st.transactions).find?
          (fun t => decide (t.id = n)) = none :=
        find?_removeFirstTx n st.transactions hnd
      unfold handleCommand
      rw [hp, hn]
      dsimp only
      rw [hnone]

/-- Witness for C7: deleting transaction 1 from a one-row store removes it
and confirms the id; a second delete of the same id is not-found. -/
theorem delete_behaviour_witness :
    handleCommand ⟨2025, 1, 1⟩ (str "delete 1") storeA =
      ({ storeA with transactions := [] }, Outcome.deleted 1) ∧
    handleCommand ⟨2025, 1, 1⟩ (str "delete 1")
        { storeA with transactions := [] } =
      ({ storeA with transactions := [] }, Outcome.notFound) := by
  have h := (delete_behaviour ⟨2025, 1, 1⟩ (str "delete 1") storeA
    (by decide)).2.2 1 txA (by decide) (by decide) (by decide) (by decide)
  constructor
  · have h1 := h.1
    simpa [storeA, txA, removeFirstTx] using h1
  · have h2 := h.2
    simpa [storeA, txA, removeFirstTx] using h2

/-! ### Claim C5 -/

/-- Claim C5: budget creation is an upsert keyed by category: after calling
it twice with the same category and different monthly amounts, exactly one
budget row exists for that category, its monthly amount is the value from
the latest call, and each call distinctly reports created versus updated.
The hypothesis that at most one row for the category pre-exists is the
uniqueness the schema enforces (`category` is a unique column). -/
theorem budget_upsert_twice (st : Store) (cat : Text) (a1 a2 : ℚ) (c1 c2 : Text)
    (huniq : (st.budgets.filter (fun b => decide (b.category = cat))).length ≤ 1)
    (hne : a1 ≠ a2) :
    (((createBudget cat a2 c2 (createBudget cat a1 c1 st).1).1.budgets.filter
        (fun b => decide (b.category = cat))).length = 1) ∧
    (∀ b ∈ (createBudget cat a2 c2 (createBudget cat a1 c1 st).1).1.budgets,
      b.category = cat → b.monthly_amount = a2) ∧
    (createBudget cat a2 c2 (createBudget cat a1 c1 st).1).2 =
      UpsertAction.updatedB ∧
    (createBudget cat a1 c1 st).2 =
      (if st.budgets.any (fun b => decide (b.category = cat)) then
        UpsertAction.updatedB else UpsertAction.created) := by
  by_cases hany : st.budgets.any (fun b => decide (b.category = cat)) = true
  · have h1 : createBudget cat a1 c1 st =
        ({ st with budgets := updateFirstBudget cat a1 c1 st.budgets },
          UpsertAction.updatedB) := by
      unfold createBudget
      rw [if_pos hany]
    have hany1 : (updateFirstBudget cat a1 c1 st.budgets).any
        (fun b => decide (b.category = cat)) = true :=
      updateFirstBudget_any cat a1 c1 st.budgets hany
    have h2 : createBudget cat a2 c2
        { st with budgets := updateFirstBudget cat a1 c1 st.budgets } =
        ({ st with budgets :=
            updateFirstBudget cat a2 c2 (updateFirstBudget cat a1 c1 st.budgets) },
          UpsertAction.updatedB) := by
      unfold createBudget
      dsimp only
      rw [if_pos hany1]
    have hlen0 : 1 ≤ (st.budgets.filter (fun b => decide (b.category = cat))).length := by
      rcases List.any_eq_true.mp hany with ⟨b, hb, hpb⟩
      have hmem : b ∈ st.budgets.filter (fun b => decide (b.category = cat)) :=
        List.mem_filter.mpr ⟨hb, hpb⟩
      have := List.length_pos.mpr (List.ne_nil_of_mem hmem)
      omega
    have e1 := updateFirstBudget_filter_length cat a1 c1 st.budgets
    have e2 := updateFirstBudget_filter_length cat a2 c2
      (updateFirstBudget cat a1 c1 st.budgets)
    rw [h1]
    dsimp only
    rw [h2]
    dsimp only
    refine ⟨by rw [e2, e1]; omega, ?_, rfl, by rw [if_pos hany]⟩
    intro b hb hbcat
    exact updateFirstBudget_mem cat a2 c2 _ (by rw [e1]; exact huniq) b hb hbcat
  · have hfil : st.budgets.filter (fun b => decide (b.category = cat)) = [] := by
      rw [List.filter_eq_nil_iff]
      intro b hb hpb
      exact hany (List.any_eq_true.mpr ⟨b, hb, hpb⟩)
    have h1 : createBudget cat a1 c1 st =
        ({ st with
            budgets := st.budgets ++ [⟨st.nextBudgetId, cat, a1, c1⟩],
            nextBudgetId := st.nextBudgetId + 1 }, UpsertAction.created) := by
      unfold createBudget
      rw [if_neg hany]
    have hany1 : (st.budgets ++ [(⟨st.nextBudgetId, cat, a1, c1⟩ : Budget)]).any
        (fun b => decide (b.category = cat)) = true :=
      List.any_eq_true.mpr ⟨⟨st.nextBudgetId, cat, a1, c1⟩, by simp, by simp⟩
    have h2 : createBudget cat a2 c2
        ({ st with
            budgets := st.budgets ++ [⟨st.nextBudgetId, cat, a1, c1⟩],
            nextBudgetId := st.nextBudgetId + 1 }) =
        ({ st with
            budgets := updateFirstBudget cat a2 c2
              (st.budgets ++ [⟨st.nextBudgetId, cat, a1, c1⟩]),
            nextBudgetId := st.nextBudgetId + 1 }, UpsertAction.updatedB) := by
      unfold createBudget
      dsimp only
      rw [if_pos hany1]
    have hflen : ((st.budgets ++ [(⟨st.nextBudgetId, cat, a1, c1⟩ : Budget)]).filter
        (fun b => decide (b.category = cat))).length = 1 := by
      rw [List.filter_append, hfil]
      simp
    rw [h1]
    dsimp only
    rw [h2]
    dsimp only
    refine ⟨?_, ?_, rfl, by rw [if_neg hany]⟩
    · rw [updateFirstBudget_filter_length]
      exact hflen
    · intro b hb hbcat
      exact updateFirstBudget_mem cat a2 c2 _ (by rw [hflen]) b hb hbcat

/-- Witness for C5: two upserts for category food on the empty store leave
exactly one food budget row, the second call reports updated and the first
reports created. -/
theorem budget_upsert_twice_witness :
    (((createBudget (str "food") 75 (str "USD")
        (createBudget (str "food") 50 (str "USD") emptyStore).1).1.budgets.filter
      (fun b => decide (b.category = str "food"))).length = 1) ∧
    (createBudget (str "food") 75 (str "USD")
      (createBudget (str "food") 50 (str "USD") emptyStore).1).2 =
        UpsertAction.updatedB ∧
    (createBudget (str "food") 50 (str "USD") emptyStore).2 =
        UpsertAction.created := by
  have h := budget_upsert_twice emptyStore (str "food") 50 75 (str "USD")
    (str "USD") (by decide) (by decide)
  exact ⟨h.1, h.2.2.1, by simpa [emptyStore] using h.2.2.2⟩

/-! ### Claim C6 -/

/-- Claim C6: after the add path creates a transaction with category `cat`,
the outcome carries a budget warning exactly when a budget for `cat` exists
and the month-to-date expense sum for `cat` (including the new row) is at
least 85 percent of that budget's monthly amount: an exceeded warning at
100 percent or more, a near-limit warning between 85 and 100 percent, and
no warning when no budget exists.  Budgets are assumed positive, the
invariant the data model states for `monthly_amount`. -/
theorem add_budget_warning (now : Date) (raw : Text) (st : Store) (q : ℚ)
    (cat desc : Text) (hbpos : ∀ b ∈ st.budgets, 0 < b.monthly_amount) :
    (parseCommand raw = Parsed.add (some q) cat desc →
      handleCommand now raw st =
        ({ st with
            transactions := st.transactions ++
              [⟨st.nextTxId, q, cat, desc, now, true, none⟩],
            nextTxId := st.nextTxId + 1 },
          Outcome.added ⟨st.nextTxId, q, cat, desc, now, true, none⟩
            (budgetWarning
              (monthSpent now cat (st.transactions ++
                [⟨st.nextTxId, q, cat, desc, now, true, none⟩]))
              (st.budgets.find? (fun b => decide (b.category = cat)))))) ∧
    (parseCommand raw = Parsed.add_income (some q) cat desc →
      handleCommand now raw st =
        ({ st with
            transactions := st.transactions ++
              [⟨st.nextTxId, q, cat, desc, now, false, none⟩],
            nextTxId := st.nextTxId + 1 },
          Outcome.added ⟨st.nextTxId, q, cat, desc, now, false, none⟩
            (budgetWarning
              (monthSpent now cat (st.transactions ++
                [⟨st.nextTxId, q, cat, desc, now, false, none⟩]))
              (st.budgets.find? (fun b => decide (b.category = cat)))))) ∧
    (∀ S : ℚ, st.budgets.find? (fun b => decide (b.category = cat)) = none →
      budgetWarning S (st.budgets.find? (fun b => decide (b.category = cat))) =
        none) ∧
    (∀ S : ℚ, ∀ b : Budget,
      st.budgets.find? (fun b => decide (b.category = cat)) = some b →
      ((budgetWarning S (some b) = some (Warning.exceeded S b.monthly_amount)) ↔
        b.monthly_amount ≤ S) ∧
      ((budgetWarning S (some b) = some (Warning.nearLimit S b.monthly_amount)) ↔
        ((85 / 100 : ℚ) * b.monthly_amount ≤ S ∧ S < b.monthly_amount)) ∧
      ((budgetWarning S (some b) = none) ↔
        S < (85 / 100 : ℚ) * b.monthly_amount)) := by
  refine ⟨?_, ?_, ?_, ?_⟩
  · intro hp
    unfold handleCommand
    rw [hp]
  · intro hp
    unfold handleCommand
    rw [hp]
  · intro S hf
    rw [hf]
    rfl
  · intro S b hf
    have hbm : 0 < b.monthly_amount := hbpos b (List.mem_of_find?_eq_some hf)
    have hw : budgetWarning S (some b) =
        if 1 ≤ S / b.monthly_amount then
          some (Warning.exceeded S b.monthly_amount)
        else if (85 / 100 : ℚ) ≤ S / b.monthly_amount then
          some (Warning.nearLimit S b.monthly_amount)
        else none := by
      unfold budgetWarning
      dsimp only
      rw [if_pos hbm]
    rw [hw]
    by_cases h1 : (1 : ℚ) ≤ S / b.monthly_amount
    · rw [if_pos h1]
      have hms : b.monthly_amount ≤ S := (one_le_div hbm).mp h1
      refine ⟨iff_of_true rfl hms, ?_, ?_⟩
      · refine iff_of_false (by simp) ?_
        rintro ⟨_, hlt⟩
        exact absurd hms (not_le.mpr hlt)
      · refine iff_of_false (by simp) ?_
        intro hlt
        have h85m : (85 / 100 : ℚ) * b.monthly_amount ≤ b.monthly_amount := by
          nlinarith
        linarith
    · rw [if_neg h1]
      have hlt : S < b.monthly_amount := by
        rw [not_le] at h1
        exact (div_lt_one hbm).mp h1
      by_cases h2 : (85 / 100 : ℚ) ≤ S / b.monthly_amount
      · rw [if_pos h2]
        have h85 : (85 / 100 : ℚ) * b.monthly_amount ≤ S := (le_div_iff hbm).mp h2
        refine ⟨?_, iff_of_true rfl ⟨h85, hlt⟩, ?_⟩
        · refine iff_of_false (by simp) ?_
          intro hc
          exact absurd hlt (not_lt.mpr hc)
        · refine iff_of_false (by simp) ?_
          intro hc
          exact absurd h85 (not_le.mpr hc)
      · rw [if_neg h2]
        have h85n : S < (85 / 100 : ℚ) * b.monthly_amount := by
          rw [not_le] at h2
          have := (div_lt_iff hbm).mp h2
          linarith
        refine ⟨?_, ?_, iff_of_true rfl h85n⟩
        · refine iff_of_false (by simp) ?_
          intro hc
          nlinarith
        · refine iff_of_false (by simp) ?_
          rintro ⟨hc, _⟩
          exact absurd h85n (not_lt.mpr (le_trans hc (le_refl _))) 
        

/-- Witness for C6: adding a ten-unit food expense to a store with eighty
month-to-date food spending and a hundred-unit food budget produces the
near-limit warning at ninety of one hundred. -/
theorem add_budget_warning_witness :
    handleCommand ⟨2025, 3, 10⟩ (str "spent 10 on food") storeBudget =
      ({ storeBudget with
          transactions := storeBudget.transactions ++
            [⟨2, 10, str "food", str "spent 10 on food", ⟨2025, 3, 10⟩, true, none⟩],
          nextTxId := 3 },
        Outcome.added
          ⟨2, 10, str "food", str "spent 10 on food", ⟨2025, 3, 10⟩, true, none⟩
          (some (Warning.nearLimit 90 100))) := by
  have h := (add_budget_warning ⟨2025, 3, 10⟩ (str "spent 10 on food")
    storeBudget 10 (str "food") (str "spent 10 on food") (by decide)).1 (by decide)
  rw [h]
  have hspent : monthSpent ⟨2025, 3, 10⟩ (str "food")
      (storeBudget.transactions ++
        [⟨storeBudget.nextTxId, 10, str "food", str "spent 10 on food",
          ⟨2025, 3, 10⟩, true, none⟩]) = 90 := by
    norm_num [monthSpent, sumAmounts, storeBudget, emptyStore, List.filter,
      List.foldl]
  have hfind : storeBudget.budgets.find?
      (fun b => decide (b.category = str "food")) = some budgetFood := by decide
  have hwarn : budgetWarning 90 (some budgetFood) =
      some (Warning.nearLimit 90 100) := by
    norm_num [budgetWarning, budgetFood]
  rw [hfind, hspent, hwarn]
  decide

/-! ### Claim C2 -/

/-- Claim C2: on a scheduler pass, every due rule (next-run on or before the
current date) materializes exactly one transaction per pass regardless of
how overdue it is, dated at the rule's pre-advance next-run; the rule's
next-run then advances by one calendar month with day-of-month clamped to
the last valid day for interval monthly (Jan 31 advances to Feb 28, or
Feb 29 in a leap year), and by exactly seven days for interval weekly.
Distinct rule ids are the primary-key uniqueness of the table. -/
theorem runDue_per_rule (today : Date) (st : Store) (r : RecurringTransaction)
    (hmem : r ∈ st.recurring) (hdue : dateLeP r.next_run today)
    (hnd : (st.recurring.map RecurringTransaction.id).Nodup) :
    (((runDue today st).2.filter
      (fun t => decide (t.recurring_id = some r.id))).length = 1) ∧
    (∀ t ∈ (runDue today st).2, t.recurring_id = some r.id →
      t.ts = r.next_run) ∧
    ({ r with next_run := advanceRule r } ∈ (runDue today st).1.recurring) ∧
    (r.interval = str "monthly" → advanceRule r = addMonthClamped r.next_run) ∧
    (r.interval = str "weekly" → advanceRule r = addDays 7 r.next_run) ∧
    addMonthClamped ⟨2025, 1, 31⟩ = ⟨2025, 2, 28⟩ ∧
    addMonthClamped ⟨2024, 1, 31⟩ = ⟨2024, 2, 29⟩ := by
  have hdec : decide (dateLeP r.next_run today) = true := by simpa using hdue
  have hrdue : r ∈ st.recurring.filter
      (fun p => decide (dateLeP p.next_run today)) :=
    List.mem_filter.mpr ⟨hmem, hdec⟩
  have hsub : List.Sublist (st.recurring.filter
      (fun p => decide (dateLeP p.next_run today))) st.recurring :=
    List.filter_sublist _
  have hndDue : ((st.recurring.filter
      (fun p => decide (dateLeP p.next_run today))).map
        RecurringTransaction.id).Nodup :=
    hnd.sublist (hsub.map RecurringTransaction.id)
  have h2 : (runDue today st).2 = materializeAll st.nextTxId
      (st.recurring.filter (fun p => decide (dateLeP p.next_run today))) := rfl
  have h1r : (runDue today st).1.recurring = st.recurring.map
      (fun p => if dateLeP p.next_run today then
        { p with next_run := advanceRule p } else p) := rfl
  refine ⟨?_, ?_, ?_, ?_, ?_, by decide, by decide⟩
  · rw [h2, materializeAll_filter r.id]
    exact filter_id_length_one r _ hndDue hrdue
  · intro t ht htr
    rw [h2] at ht
    rcases mem_materializeAll _ _ t ht with ⟨q, hq, hq1, hq2⟩
    have hqmem : q ∈ st.recurring := List.mem_of_mem_filter hq
    have hid : q.id = r.id := by
      rw [htr] at hq1
      exact (Option.some.injEq _ _ ▸ hq1.symm)
    have hqr : q = r := List.inj_on_of_nodup_map hnd hqmem hmem hid
    rw [hq2, hqr]
  · rw [h1r]
    exact List.mem_map.mpr ⟨r, hmem, by rw [if_pos hdue]⟩
  · intro h
    unfold advanceRule
    rw [if_pos h]
  · intro h
    unfold advanceRule
    rw [if_neg (by rw [h]; decide)]

/-- Witness for C2: a monthly rule with next-run January 31, 2025 that is
due on February 5, 2025 produces exactly one transaction and its clamped
advance lands on February 28. -/
theorem runDue_per_rule_witness :
    (((runDue ⟨2025, 2, 5⟩ storeR).2.filter
      (fun t => decide (t.recurring_id = some ruleA.id))).length = 1) ∧
    ({ ruleA with next_run := advanceRule ruleA } ∈
      (runDue ⟨2025, 2, 5⟩ storeR).1.recurring) ∧
    addMonthClamped ⟨2025, 1, 31⟩ = ⟨2025, 2, 28⟩ := by
  have h := runDue_per_rule ⟨2025, 2, 5⟩ storeR ruleA (by decide) (by decide)
    (by decide)
  exact ⟨h.1, h.2.2.1, h.2.2.2.2.2.1⟩

/-! ### Claim C8 -/

/-- Claim C8 counterexample: a monthly rule with next-run January 1, 2024
processed on March 15, 2024 has next-run February 1, 2024 after the pass —
a concrete date still strictly before the current date, refuting the
invariant that next-run is never in the past after a pass. -/
theorem next_run_past_counterexample :
    ((runDue ⟨2024, 3, 15⟩ storeOverdue).1.recurring.map
      RecurringTransaction.next_run) = [⟨2024, 2, 1⟩] ∧
    dateLtP ⟨2024, 2, 1⟩ ⟨2024, 3, 15⟩ := by decide

/-- Claim C8 (amended): after a scheduler pass, each due rule's next-run is
advanced by exactly one interval and is strictly later than its pre-pass
value; a rule overdue by more than one interval may still have next-run in
the past after the pass. -/
theorem next_run_advances (today : Date) (st : Store)
    (r : RecurringTransaction) (hmem : r ∈ st.recurring)
    (hdue : dateLeP r.next_run today) :
    { r with next_run := advanceRule r } ∈ (runDue today st).1.recurring ∧
    dateLtP r.next_run (advanceRule r) := by
  constructor
  · have h1r : (runDue today st).1.recurring = st.recurring.map
        (fun p => if dateLeP p.next_run today then
          { p with next_run := advanceRule p } else p) := rfl
    rw [h1r]
    exact List.mem_map.mpr ⟨r, hmem, by rw [if_pos hdue]⟩
  · exact dateLtP_advanceRule r

/-- Witness for C8 (amended): the overdue rule's next-run strictly advances
from January 1 to February 1, 2024. -/
theorem next_run_advances_witness :
    { ruleOverdue with next_run := advanceRule ruleOverdue } ∈
      (runDue ⟨2024, 3, 15⟩ storeOverdue).1.recurring ∧
    dateLtP ruleOverdue.next_run (advanceRule ruleOverdue) :=
  next_run_advances ⟨2024, 3, 15⟩ storeOverdue ruleOverdue (by decide)
    (by decide)

/-! ### Claim C9 -/

/-- Claim C9 counterexample: the command "spent 0 on food" is classified as
an expense add, the amount pattern matches the numeral 0, and a transaction
with amount 0 is stored — refuting the invariant that every stored
transaction has amount strictly greater than zero. -/
theorem amount_positive_counterexample :
    ¬ (∀ t ∈ (handleCommand ⟨2025, 3, 10⟩ (str "spent 0 on food")
      emptyStore).1.transactions, 0 < t.amount) := by decide

/-- Claim C9 (amended): the amount the lexical extractor returns is
nonnegative whenever present (the pattern carries no sign, and matches the
numeral 0, so strict positivity fails); hence every transaction the command
path itself creates has amount at least zero; the edit operation overwrites
the amount with the request value verbatim, with no positivity check. -/
theorem amount_nonneg_amended :
    (∀ (l : Text) (q : ℚ), extractAmount l = some q → 0 ≤ q) ∧
    (∀ (now : Date) (raw : Text) (st : Store),
      ∀ t ∈ (handleCommand now raw st).1.transactions,
        t ∈ st.transactions ∨ 0 ≤ t.amount) ∧
    (∀ (p : EditRequest) (st : Store),
      ∀ t ∈ (editTransaction p st).1.transactions,
        t ∈ st.transactions ∨ t.amount = p.amount) ∧
    (∀ (p : EditRequest) (st : Store),
      (st.transactions.map Transaction.id).Nodup →
      ∀ t ∈ (editTransaction p st).1.transactions,
        t.id = p.id → t.amount = p.amount) := by
  refine ⟨extractAmount_nonneg, ?_, ?_, ?_⟩
  · intro now raw st t ht
    cases hp : parseCommand raw
    case add a cat desc =>
      cases a with
      | none =>
        unfold handleCommand at ht
        rw [hp] at ht
        exact Or.inl (by simpa using ht)
      | some q =>
        unfold handleCommand at ht
        rw [hp] at ht
        dsimp only at ht
        rcases List.mem_append.mp ht with h | h
        · exact Or.inl h
        · right
          have hq : extractAmount (pyLower raw) = some q :=
            ((parseCommand_add_inv raw (some q) cat desc hp).1).symm
          have ht' : t = ⟨st.nextTxId, q, cat, desc, now, true, none⟩ := by
            simpa using h
          rw [ht']
          exact extractAmount_nonneg _ q hq
    case add_income a cat desc =>
      cases a with
      | none =>
        unfold handleCommand at ht
        rw [hp] at ht
        exact Or.inl (by simpa using ht)
      | some q =>
        unfold handleCommand at ht
        rw [hp] at ht
        dsimp only at ht
        rcases List.mem_append.mp ht with h | h
        · exact Or.inl h
        · right
          have hq : extractAmount (pyLower raw) = some q :=
            ((parseCommand_add_income_inv raw (some q) cat desc hp).1).symm
          have ht' : t = ⟨st.nextTxId, q, cat, desc, now, false, none⟩ := by
            simpa using h
          rw [ht']
          exact extractAmount_nonneg _ q hq
    case summary =>
      unfold handleCommand at ht
      rw [hp] at ht
      exact Or.inl (by simpa using ht)
    case list =>
      unfold handleCommand at ht
      rw [hp] at ht
      exact Or.inl (by simpa using ht)
    case get_tx n =>
      unfold handleCommand at ht
      rw [hp] at ht
      dsimp only at ht
      rcases hf : st.transactions.find? (fun t => decide (t.id = n)) with _ | v
      · rw [hf] at ht
        exact Or.inl (by simpa using ht)
      · rw [hf] at ht
        exact Or.inl (by simpa using ht)
    case delete =>
      unfold handleCommand at ht
      rw [hp] at ht
      dsimp only at ht
      rcases hd : findDeleteId raw with _ | n
      · rw [hd] at ht
        exact Or.inl (by simpa using ht)
      · rw [hd] at ht
        dsimp only at ht
        rcases hf : st.transactions.find? (fun t => decide (t.id = n)) with _ | v
        · rw [hf] at ht
          exact Or.inl (by simpa using ht)
        · rw [hf] at ht
          dsimp only at ht
          exact Or.inl (mem_removeFirstTx n st.transactions t (by simpa using ht))
    case unknown =>
      unfold handleCommand at ht
      rw [hp] at ht
      exact Or.inl (by simpa using ht)
  · intro p st t ht
    unfold editTransaction at ht
    rcases hf : st.transactions.find? (fun t => decide (t.id = p.id)) with _ | v
    · rw [hf] at ht
      exact Or.inl (by simpa using ht)
    · rw [hf] at ht
      dsimp only at ht
      exact mem_updateFirstTx p st.transactions t (by simpa using ht)
  · intro p st hnd t ht htid
    unfold editTransaction at ht
    rcases hf : st.transactions.find? (fun t => decide (t.id = p.id)) with _ | v
    · rw [hf] at ht
      have hmem : t ∈ st.transactions := by simpa using ht
      have hps : (st.transactions.find? (fun t => decide (t.id = p.id))).isSome := by
        rw [List.find?_isSome]
        exact ⟨t, hmem, by simpa using htid⟩
      rw [hf] at hps
      simp at hps
    · rw [hf] at ht
      dsimp only at ht
      exact updateFirstTx_amount p st.transactions hnd t (by simpa using ht) htid

/-- Witness for C9 (amended): the extractor returns 5 on input "5" and 5 is
nonnegative. -/
theorem amount_nonneg_amended_witness :
    extractAmount (str "5") = some 5 ∧ (0 : ℚ) ≤ 5 :=
  ⟨by decide, amount_nonneg_amended.1 (str "5") 5 (by decide)⟩

/-! ### Claim C1 -/

/-- Claim C1 counterexample: the input "paid 5" contains "paid", a keyword
the claim's rule 1 lists, yet the classifier returns unknown rather than
add-expense — keyword matching is substring containment and "pay" is not a
substring of "paid", nor does any later rule fire. -/
theorem intent_rules_counterexample :
    str "paid" <:+: pyLower (str "paid 5") ∧
    (parseCommand (str "paid 5")).intent = Intent.unknown ∧
    Intent.unknown ≠ Intent.add :=
  ⟨⟨[], str " 5", by decide⟩, by decide, by decide⟩

/-- Claim C1 (amended): the classifier applies ordered rules to the
lowercased input, first match winning, with the keyword sets the code uses:
rule 1 {"spent","bought","pay","purchase"} gives add-expense (so "paid",
"got paid", "income" and "show" from the original claim are not keywords);
rule 2 {"earned","salary","received"} gives add-income; rule 3
{"summary","balance"} gives summary; rule 4 {"list","transactions"} gives
list; rule 5 {"delete","remove"} gives delete; rule 6 classifies an input
whose trimmed text is entirely digits, at most six of them, as get-by-id
with that numeral as the target id; otherwise the intent is unknown. -/
theorem intent_rules (raw : Text) :
    ((str "spent" <:+: pyLower raw ∨ str "bought" <:+: pyLower raw ∨
        str "pay" <:+: pyLower raw ∨ str "purchase" <:+: pyLower raw) →
      (parseCommand raw).intent = Intent.add) ∧
    (¬(str "spent" <:+: pyLower raw ∨ str "bought" <:+: pyLower raw ∨
        str "pay" <:+: pyLower raw ∨ str "purchase" <:+: pyLower raw) →
      (str "earned" <:+: pyLower raw ∨ str "salary" <:+: pyLower raw ∨
        str "received" <:+: pyLower raw) →
      (parseCommand raw).intent = Intent.add_income) ∧
    (¬(str "spent" <:+: pyLower raw ∨ str "bought" <:+: pyLower raw ∨
        str "pay" <:+: pyLower raw ∨ str "purchase" <:+: pyLower raw) →
      ¬(str "earned" <:+: pyLower raw ∨ str "salary" <:+: pyLower raw ∨
        str "received" <:+: pyLower raw) →
      (str "summary" <:+: pyLower raw ∨ str "balance" <:+: pyLower raw) →
      (parseCommand raw).intent = Intent.summary) ∧
    (¬(str "spent" <:+: pyLower raw ∨ str "bought" <:+: pyLower raw ∨
        str "pay" <:+: pyLower raw ∨ str "purchase" <:+: pyLower raw) →
      ¬(str "earned" <:+: pyLower raw ∨ str "salary" <:+: pyLower raw ∨
        str "received" <:+: pyLower raw) →
      ¬(str "summary" <:+: pyLower raw ∨ str "balance" <:+: pyLower raw) →
      (str "list" <:+: pyLower raw ∨ str "transactions" <:+: pyLower raw) →
      (parseCommand raw).intent = Intent.list) ∧
    (¬(str "spent" <:+: pyLower raw ∨ str "bought" <:+: pyLower raw ∨
        str "pay" <:+: pyLower raw ∨ str "purchase" <:+: pyLower raw) →
      ¬(str "earned" <:+: pyLower raw ∨ str "salary" <:+: pyLower raw ∨
        str "received" <:+: pyLower raw) →
      ¬(str "summary" <:+: pyLower raw ∨ str "balance" <:+: pyLower raw) →
      ¬(str "list" <:+: pyLower raw ∨ str "transactions" <:+: pyLower raw) →
      (str "delete" <:+: pyLower raw ∨ str "remove" <:+: pyLower raw) →
      (parseCommand raw).intent = Intent.delete) ∧
    (¬(str "spent" <:+: pyLower raw ∨ str "bought" <:+: pyLower raw ∨
        str "pay" <:+: pyLower raw ∨ str "purchase" <:+: pyLower raw) →
      ¬(str "earned" <:+: pyLower raw ∨ str "salary" <:+: pyLower raw ∨
        str "received" <:+: pyLower raw) →
      ¬(str "summary" <:+: pyLower raw ∨ str "balance" <:+: pyLower raw) →
      ¬(str "list" <:+: pyLower raw ∨ str "transactions" <:+: pyLower raw) →
      ¬(str "delete" <:+: pyLower raw ∨ str "remove" <:+: pyLower raw) →
      (pyStrip (pyLower raw) ≠ [] ∧
        (∀ c ∈ pyStrip (pyLower raw), isDigitA c = true) ∧
        (pyStrip (pyLower raw)).length ≤ 6) →
      parseCommand raw = Parsed.get_tx (digsVal (pyStrip (pyLower raw)))) ∧
    (¬(str "spent" <:+: pyLower raw ∨ str "bought" <:+: pyLower raw ∨
        str "pay" <:+: pyLower raw ∨ str "purchase" <:+: pyLower raw) →
      ¬(str "earned" <:+: pyLower raw ∨ str "salary" <:+: pyLower raw ∨
        str "received" <:+: pyLower raw) →
      ¬(str "summary" <:+: pyLower raw ∨ str "balance" <:+: pyLower raw) →
      ¬(str "list" <:+: pyLower raw ∨ str "transactions" <:+: pyLower raw) →
      ¬(str "delete" <:+: pyLower raw ∨ str "remove" <:+: pyLower raw) →
      ¬(pyStrip (pyLower raw) ≠ [] ∧
        (∀ c ∈ pyStrip (pyLower raw), isDigitA c = true) ∧
        (pyStrip (pyLower raw)).length ≤ 6) →
      (parseCommand raw).intent = Intent.unknown) := by
  have i1 : (containsSub (str "spent") (pyLower raw) ||
      containsSub (str "bought") (pyLower raw) ||
      containsSub (str "pay") (pyLower raw) ||
      containsSub (str "purchase") (pyLower raw)) = true ↔
      (str "spent" <:+: pyLower raw ∨ str "bought" <:+: pyLower raw ∨
        str "pay" <:+: pyLower raw ∨ str "purchase" <:+: pyLower raw) := by
    simp only [Bool.or_eq_true, containsSub_iff]
    tauto
  have i2 : (containsSub (str "earned") (pyLower raw) ||
      containsSub (str "salary") (pyLower raw) ||
      containsSub (str "received") (pyLower raw)) = true ↔
      (str "earned" <:+: pyLower raw ∨ str "salary" <:+: pyLower raw ∨
        str "received" <:+: pyLower raw) := by
    simp only [Bool.or_eq_true, containsSub_iff]
    tauto
  have i3 : (containsSub (str "summary") (pyLower raw) ||
      containsSub (str "balance") (pyLower raw)) = true ↔
      (str "summary" <:+: pyLower raw ∨ str "balance" <:+: pyLower raw) := by
    simp only [Bool.or_eq_true, containsSub_iff]
  have i4 : (containsSub (str "list") (pyLower raw) ||
      containsSub (str "transactions") (pyLower raw)) = true ↔
      (str "list" <:+: pyLower raw ∨ str "transactions" <:+: pyLower raw) := by
    simp only [Bool.or_eq_true, containsSub_iff]
  have i5 : (containsSub (str "delete") (pyLower raw) ||
      containsSub (str "remove") (pyLower raw)) = true ↔
      (str "delete" <:+: pyLower raw ∨ str "remove" <:+: pyLower raw) := by
    simp only [Bool.or_eq_true, containsSub_iff]
  have i6 : (pyStrip (pyLower raw) ≠ [] ∧
      (pyStrip (pyLower raw)).all isDigitA = true ∧
      (pyStrip (pyLower raw)).length < 7) ↔
      (pyStrip (pyLower raw) ≠ [] ∧
        (∀ c ∈ pyStrip (pyLower raw), isDigitA c = true) ∧
        (pyStrip (pyLower raw)).length ≤ 6) := by
    constructor
    · rintro ⟨h1, h2, h3⟩
      exact ⟨h1, by simpa only [List.all_eq_true] using h2, by omega⟩
    · rintro ⟨h1, h2, h3⟩
      exact ⟨h1, by simpa only [List.all_eq_true] using h2, by omega⟩
  refine ⟨?_, ?_, ?_, ?_, ?_, ?_, ?_⟩
  · intro h1
    rw [parseCommand, if_pos (i1.mpr h1)]
    rfl
  · intro h1 h2
    rw [parseCommand, if_neg (fun hb => h1 (i1.mp hb)),
      if_pos (i2.mpr h2)]
    rfl
  · intro h1 h2 h3
    rw [parseCommand, if_neg (fun hb => h1 (i1.mp hb)),
      if_neg (fun hb => h2 (i2.mp hb)), if_pos (i3.mpr h3)]
    rfl
  · intro h1 h2 h3 h4
    rw [parseCommand, if_neg (fun hb => h1 (i1.mp hb)),
      if_neg (fun hb => h2 (i2.mp hb)), if_neg (fun hb => h3 (i3.mp hb)),
      if_pos (i4.mpr h4)]
    rfl
  · intro h1 h2 h3 h4 h5
    rw [parseCommand, if_neg (fun hb => h1 (i1.mp hb)),
      if_neg (fun hb => h2 (i2.mp hb)), if_neg (fun hb => h3 (i3.mp hb)),
      if_neg (fun hb => h4 (i4.mp hb)), if_pos (i5.mpr h5)]
    rfl
  · intro h1 h2 h3 h4 h5 h6
    rw [parseCommand, if_neg (fun hb => h1 (i1.mp hb)),
      if_neg (fun hb => h2 (i2.mp hb)), if_neg (fun hb => h3 (i3.mp hb)),
      if_neg (fun hb => h4 (i4.mp hb)), if_neg (fun hb => h5 (i5.mp hb)),
      if_pos (i6.mpr h6)]
  · intro h1 h2 h3 h4 h5 h6
    rw [parseCommand, if_neg (fun hb => h1 (i1.mp hb)),
      if_neg (fun hb => h2 (i2.mp hb)), if_neg (fun hb => h3 (i3.mp hb)),
      if_neg (fun hb => h4 (i4.mp hb)), if_neg (fun hb => h5 (i5.mp hb)),
      if_neg (fun hc => h6 (i6.mp hc))]
    rfl

/-- Witness for C1 (amended): "spent 20" contains "spent", so rule 1 fires
and the intent is add-expense. -/
theorem intent_rules_witness :
    (parseCommand (str "spent 20")).intent = Intent.add :=
  (intent_rules (str "spent 20")).1 (Or.inl ⟨[], str " 20", by decide⟩)
